import Mathlib

set_option maxHeartbeats 1000000

/- Shallow embedding of the rawcell subsystem of the gdstk repository
   (src/rawcell.cpp): dependency resolution, polygon extraction, the
   whole-file loader and raw-cell serialization.  C++ machine integers are
   modelled as Nat/Int, IEEE doubles as exact rationals, byte streams as
   lists of decoded records, and the potentially diverging recursions of
   the source carry an explicit fuel bound: a result of none means the
   bound was exceeded; a run that diverges in C++ returns none for every
   fuel. -/

inductive ErrCode where
  | noError
  | inputFileOpenError
  | inputFileError
  | invalidFile
  | missingReference
  | streamError
  deriving DecidableEq

/- Map from string keys to cell ids, mirroring the gdstk Map of RawCell
   pointers keyed by the cell name (map.h): set replaces the value stored
   under an existing key and inserts otherwise, get returns the value
   stored under a key. -/

abbrev DepMap := List (String × Nat)

def mapGet : DepMap → String → Option Nat
  | [], _ => none
  | (k, v) :: rest, key => if k = key then some v else mapGet rest key

def mapSet : DepMap → String → Nat → DepMap
  | [], key, v => [(key, v)]
  | (k, v') :: rest, key, v =>
    if k = key then (k, v) :: rest else (k, v') :: mapSet rest key v

/- A loaded structure entity as used by RawCell::get_dependencies and
   RawCell::get_polygons: a name and the list of resolved dependencies.
   Cells are identified by an index into the ambient graph g. -/

structure GCell where
  name : String
  deps : List Nat
  deriving DecidableEq

/- RawCell::get_dependencies (src/rawcell.cpp:63-72).  For each entry of
   the dependency list: when recursive is set and the accumulator does not
   already map the entry's name to that exact cell, first recurse into the
   entry; afterwards insert the entry under its name.  The fuel counts
   loop steps and recursive entries. -/

def getDepsList (g : Nat → GCell) : Bool → Nat → List Nat → DepMap → Option DepMap
  | _, 0, _, _ => none
  | _, _ + 1, [], result => some result
  | recursive, fuel + 1, d :: rest, result =>
    if recursive = true ∧ mapGet result (g d).name ≠ some d then
      match getDepsList g true fuel (g d).deps result with
      | none => none
      | some r => getDepsList g recursive fuel rest (mapSet r (g d).name d)
    else
      getDepsList g recursive fuel rest (mapSet result (g d).name d)

def get_dependencies (g : Nat → GCell) (cid : Nat) (recursive : Bool) (fuel : Nat)
    (result : DepMap) : Option DepMap :=
  getDepsList g recursive fuel (g cid).deps result

/- The two-cell mutual cycle of claim C1: cell 0 is A with dependency
   list [B], cell 1 is B with dependency list [A]; both slots resolved. -/

def gAB : Nat → GCell
  | 0 => { name := "A", deps := [1] }
  | _ => { name := "B", deps := [0] }

theorem gAB_cycle_none (fuel : Nat) :
    getDepsList gAB true fuel [0] [] = none ∧ getDepsList gAB true fuel [1] [] = none := by
  induction fuel with
  | zero => exact ⟨rfl, rfl⟩
  | succ n ih =>
    constructor
    · show getDepsList gAB true (n + 1) [0] [] = none
      rw [getDepsList]
      rw [if_pos ⟨rfl, by simp [gAB, mapGet]⟩]
      show (match getDepsList gAB true n (gAB 0).deps [] with
        | none => none
        | some r => getDepsList gAB true n [] (mapSet r (gAB 0).name 0)) = none
      rw [show (gAB 0).deps = [1] from rfl, ih.2]
    · show getDepsList gAB true (n + 1) [1] [] = none
      rw [getDepsList]
      rw [if_pos ⟨rfl, by simp [gAB, mapGet]⟩]
      show (match getDepsList gAB true n (gAB 1).deps [] with
        | none => none
        | some r => getDepsList gAB true n [] (mapSet r (gAB 1).name 1)) = none
      rw [show (gAB 1).deps = [0] from rfl, ih.1]

/- Accumulation performed by the non-recursive loop: one mapSet per
   dependency entry, left to right. -/

def foldSet (g : Nat → GCell) (deps : List Nat) (acc : DepMap) : DepMap :=
  deps.foldl (fun m d => mapSet m (g d).name d) acc

theorem mapGet_mapSet_self (m : DepMap) (k : String) (v : Nat) :
    mapGet (mapSet m k v) k = some v := by
  induction m with
  | nil => simp [mapGet, mapSet]
  | cons p rest ih =>
    obtain ⟨k', v'⟩ := p
    by_cases h : k' = k
    · subst h; simp [mapGet, mapSet]
    · simp [mapGet, mapSet, h, ih]

theorem mapGet_mapSet_ne (m : DepMap) (k key : String) (v : Nat) (h : key ≠ k) :
    mapGet (mapSet m k v) key = mapGet m key := by
  induction m with
  | nil => simp [mapGet, mapSet, Ne.symm h]
  | cons p rest ih =>
    obtain ⟨k', v'⟩ := p
    by_cases hk : k' = k
    · subst hk
      simp [mapGet, mapSet, Ne.symm h]
    · simp [mapGet, mapSet, hk, ih]

theorem getDepsList_nonrec (g : Nat → GCell) (deps : List Nat) :
    ∀ (fuel : Nat) (acc : DepMap), deps.length < fuel →
      getDepsList g false fuel deps acc = some (foldSet g deps acc) := by
  induction deps with
  | nil =>
    intro fuel acc h
    match fuel, h with
    | f + 1, _ => rfl
  | cons d rest ih =>
    intro fuel acc h
    match fuel, h with
    | f + 1, h =>
      rw [getDepsList]
      rw [if_neg (by simp)]
      have : rest.length < f := by
        simpa [List.length_cons, Nat.succ_lt_succ_iff] using h
      rw [ih f (mapSet acc (g d).name d) this]
      rfl

theorem foldSet_preserve (g : Nat → GCell) (deps : List Nat) :
    ∀ (acc : DepMap) (k : String), (∀ d ∈ deps, (g d).name ≠ k) →
      mapGet (foldSet g deps acc) k = mapGet acc k := by
  induction deps with
  | nil => intro acc k _; rfl
  | cons d rest ih =>
    intro acc k h
    show mapGet (foldSet g rest (mapSet acc (g d).name d)) k = mapGet acc k
    rw [ih _ k (fun d' hd' => h d' (List.mem_cons_of_mem _ hd'))]
    exact mapGet_mapSet_ne _ _ _ _ (fun hk => h d (List.mem_cons_self _ _) hk.symm)

theorem foldSet_hit (g : Nat → GCell) (deps : List Nat) :
    ∀ (acc : DepMap) (d : Nat), d ∈ deps →
      (∀ d1 ∈ deps, ∀ d2 ∈ deps, (g d1).name = (g d2).name → d1 = d2) →
      mapGet (foldSet g deps acc) (g d).name = some d := by
  induction deps with
  | nil => intro acc d h; exact absurd h (List.not_mem_nil d)
  | cons d0 rest ih =>
    intro acc d hd hinj
    by_cases hmem : d ∈ rest
    · exact ih _ d hmem (fun d1 h1 d2 h2 =>
        hinj d1 (List.mem_cons_of_mem _ h1) d2 (List.mem_cons_of_mem _ h2))
    · have hd0 : d = d0 := by
        rcases List.mem_cons.mp hd with h | h
        · exact h
        · exact absurd h hmem
      subst hd0
      show mapGet (foldSet g rest (mapSet acc (g d).name d)) (g d).name = some d
      rw [foldSet_preserve g rest _ _ ?hnone]
      · exact mapGet_mapSet_self _ _ _
      case hnone =>
        intro d' hd' hname
        have : d' = d := hinj d' (List.mem_cons_of_mem _ hd') d (List.mem_cons_self _ _) hname
        exact hmem (this ▸ hd')

/-- C1: for the mutual cycle A <-> B (both dependency slots resolved),
RawCell::get_dependencies with recursive=true and an empty accumulator does
not terminate: the accumulator is only written after the recursive call
returns, so the run A -> B -> A -> ... never inserts anything and the model
returns none for every recursion bound, refuting the claimed termination
with result {A, B}. -/
theorem c1_mutual_cycle_diverges (fuel : Nat) :
    get_dependencies gAB 0 true fuel [] = none := by
  show getDepsList gAB true fuel [1] [] = none
  exact (gAB_cycle_none fuel).2

/-- C10: with recursive=false, get_dependencies terminates on every graph
(any fuel exceeding the dependency-list length suffices; the loop never
recurses), and afterwards the accumulator maps the name of each listed
dependency to that cell while entries under all other names are unchanged.
Cell names are assumed injective on the dependency list, as guaranteed by
the name-keyed cell map. -/
theorem c10_nonrecursive_get_dependencies (g : Nat → GCell) (cid : Nat) (acc : DepMap)
    (fuel : Nat) (hfuel : (g cid).deps.length < fuel)
    (hinj : ∀ d1 ∈ (g cid).deps, ∀ d2 ∈ (g cid).deps, (g d1).name = (g d2).name → d1 = d2) :
    ∃ res, get_dependencies g cid false fuel acc = some res ∧
      (∀ d ∈ (g cid).deps, mapGet res (g d).name = some d) ∧
      (∀ k, (∀ d ∈ (g cid).deps, (g d).name ≠ k) → mapGet res k = mapGet acc k) := by
  refine ⟨foldSet g (g cid).deps acc, ?_, ?_, ?_⟩
  · exact getDepsList_nonrec g (g cid).deps fuel acc hfuel
  · intro d hd
    exact foldSet_hit g (g cid).deps acc d hd hinj
  · intro k hk
    exact foldSet_preserve g (g cid).deps acc k hk

/-- Witness for C10 at the concrete graph gAB, cell 0, fuel 5. -/
theorem c10_witness :
    ((gAB 0).deps.length < 5 ∧
      (∀ d1 ∈ (gAB 0).deps, ∀ d2 ∈ (gAB 0).deps, (gAB d1).name = (gAB d2).name → d1 = d2)) ∧
    (∃ res, get_dependencies gAB 0 false 5 [] = some res ∧
      (∀ d ∈ (gAB 0).deps, mapGet res (gAB d).name = some d) ∧
      (∀ k, (∀ d ∈ (gAB 0).deps, (gAB d).name ≠ k) → mapGet res k = mapGet [] k)) :=
  ⟨⟨by decide, by decide⟩, c10_nonrecursive_get_dependencies gAB 0 [] 5 (by decide) (by decide)⟩

/- ===== Polygon extraction: RawCell::get_polygons (src/rawcell.cpp:74-227) ===== -/

/- Truncation of a double to an int as performed by the C assignment
   int32_t x = factor * data32[i]: truncation toward zero.  Doubles are
   modelled as exact rationals; int32 overflow is not modelled. -/

def itrunc (q : ℚ) : ℤ := Int.tdiv q.num (q.den : ℤ)

def mulTrunc (factor : ℚ) (v : ℤ) : ℤ := itrunc (factor * (v : ℚ))

theorem mulTrunc_one (v : ℤ) : mulTrunc 1 v = v := by
  simp [mulTrunc, itrunc]

/- One decoded GDSII record, as produced by gdsii_read_record followed by
   the endianness switch: only the fields the rawcell code inspects are
   kept.  The record stream reader itself is outside src/ and is modelled
   from the spec (section 4.1): a list of well-formed records; reaching the
   end of the list without ENDLIB stands for the reader failing, which the
   code observes as a nonzero error code.  LIBNAME and every record type
   the code ignores are folded into the constructor other. -/

inductive Rec where
  | units (dbUser dbMeters : ℚ)
  | endlib
  | strname (s : String)
  | sref (s : String)
  | aref (s : String)
  | boundary
  | box
  | xy (words : List Int)
  | endel
  | endstr
  | other
  deriving DecidableEq

def nulChar : Char := Char.ofNat 0

/- C strncmp equality over a record payload: compares up to n characters,
   stopping early at a common NUL; reading past the end of either buffer
   yields the terminator. -/

def cstrncmpEq : List Char → List Char → Nat → Bool
  | _, _, 0 => true
  | a, b, n + 1 =>
    if a.headD nulChar = b.headD nulChar then
      if a.headD nulChar = nulChar then true else cstrncmpEq a.tail b.tail n
    else false

/- strncmp(str, name, data_length) == 0 in the STRNAME case, with
   data_length the payload length. -/

def strnameMatch (payload target : String) : Bool :=
  cstrncmpEq payload.data target.data payload.data.length

/- The XY loop (src/rawcell.cpp:191-195): for (i = 0; i < data_length;
   i += 4) emit (factor * w[i], factor * w[i+1], pid), where data_length
   counts 32-bit words.  The step of 4 words skips every other coordinate
   pair.  A read past the end of the decoded words (only possible for a
   malformed odd word count) returns unspecified stale bytes in C and is
   modelled as 0. -/

def xyChunks (factor : ℚ) (pid : Int) : List Int → List (Int × Int × Int)
  | [] => []
  | [x] => [(mulTrunc factor x, mulTrunc factor 0, pid)]
  | [x, y] => [(mulTrunc factor x, mulTrunc factor y, pid)]
  | [x, y, _] => [(mulTrunc factor x, mulTrunc factor y, pid)]
  | x :: y :: _ :: _ :: rest =>
    (mulTrunc factor x, mulTrunc factor y, pid) :: xyChunks factor pid rest

/- Mutable scan state of get_polygons: the locals factor and tolerance,
   the two flags target_cell_found and found_polygon, the by-reference
   start_id, the output vector and the error-code cell. -/

structure ScanSt where
  factor : ℚ
  tol : ℚ
  tc : Bool
  fp : Bool
  sid : Int
  acc : List (Int × Int × Int)
  ec : Option ErrCode
  deriving DecidableEq

/- The record loop of get_polygons.  full is the whole record stream of
   the file: a recursive expansion (SREF/AREF with depth different from 0)
   re-opens the file and scans it from the start for the referenced cell,
   passing the literal depth -1, the current tolerance, and the shared
   start_id / output / error-code state.  ENDSTR does nothing: the handler
   that would leave the target structure is commented out in the source.
   The fuel counts record steps and recursive entries. -/

def scanPolys (g : Nat → GCell) (full : List Rec) :
    Nat → Nat → Int → ℚ → List Rec → ScanSt → Option ScanSt
  | 0, _, _, _, _, _ => none
  | _ + 1, _, _, _, [], st => some { st with ec := some ErrCode.streamError }
  | fuel + 1, cid, depth, unit, r :: rest, st =>
    match r with
    | Rec.units du dm =>
      let factor := if unit > 0 then dm / unit else du
      let tol := if st.tol ≤ 0 then dm / factor else st.tol
      scanPolys g full fuel cid depth unit rest { st with factor := factor, tol := tol }
    | Rec.endlib => some st
    | Rec.strname s =>
      scanPolys g full fuel cid depth unit rest
        { st with tc := if strnameMatch s (g cid).name = true then true else st.tc }
    | Rec.sref s =>
      if st.tc = true ∧ depth ≠ 0 then
        match getDepsList g true fuel (g cid).deps [] with
        | none => none
        | some depMap =>
          match mapGet depMap s with
          | some ref =>
            match scanPolys g full fuel ref (-1) unit full
                { factor := 1, tol := st.tol, tc := false, fp := false,
                  sid := st.sid, acc := st.acc, ec := st.ec } with
            | none => none
            | some st2 =>
              scanPolys g full fuel cid depth unit rest
                { st with sid := st2.sid, acc := st2.acc, ec := st2.ec }
          | none => scanPolys g full fuel cid depth unit rest st
      else scanPolys g full fuel cid depth unit rest st
    | Rec.aref s =>
      if st.tc = true ∧ depth ≠ 0 then
        match getDepsList g true fuel (g cid).deps [] with
        | none => none
        | some depMap =>
          match mapGet depMap s with
          | some ref =>
            match scanPolys g full fuel ref (-1) unit full
                { factor := 1, tol := st.tol, tc := false, fp := false,
                  sid := st.sid, acc := st.acc, ec := st.ec } with
            | none => none
            | some st2 =>
              scanPolys g full fuel cid depth unit rest
                { st with sid := st2.sid, acc := st2.acc, ec := st2.ec }
          | none => scanPolys g full fuel cid depth unit rest st
      else scanPolys g full fuel cid depth unit rest st
    | Rec.boundary =>
      scanPolys g full fuel cid depth unit rest
        (if st.tc = true then { st with fp := true } else st)
    | Rec.box =>
      scanPolys g full fuel cid depth unit rest
        (if st.tc = true then { st with fp := true } else st)
    | Rec.xy ws =>
      if st.fp = true then
        scanPolys g full fuel cid depth unit rest
          { st with acc := st.acc ++ xyChunks st.factor st.sid ws, sid := st.sid + 1 }
      else scanPolys g full fuel cid depth unit rest st
    | Rec.endel =>
      scanPolys g full fuel cid depth unit rest
        (if st.tc = true then { st with fp := false } else st)
    | Rec.endstr => scanPolys g full fuel cid depth unit rest st
    | Rec.other => scanPolys g full fuel cid depth unit rest st

def gdsOpenErrMsg : String := "[GDSTK] Unable to open input GDSII file."

/- Entry point of RawCell::get_polygons: openOk models whether fopen on
   the cell's filename succeeds (recursive expansions reuse the same file
   and are taken to open it with the same outcome); sink models whether
   the process-wide diagnostic stream error_logger is installed.  The
   second component collects the diagnostic lines written to the sink; the
   unconditional stdout progress prints of the source are not collected. -/

def get_polygons (g : Nat → GCell) (stream : List Rec) (openOk sink : Bool) (fuel : Nat)
    (cid : Nat) (sid : Int) (depth : Int) (unit tol : ℚ) (ec : Option ErrCode)
    (acc : List (Int × Int × Int)) : Option (ScanSt × List String) :=
  if openOk then
    Option.map (fun st => (st, ([] : List String)))
      (scanPolys g stream fuel cid depth unit stream
        { factor := 1, tol := tol, tc := false, fp := false, sid := sid, acc := acc, ec := ec })
  else
    some ({ factor := 1, tol := tol, tc := false, fp := false, sid := sid, acc := acc,
            ec := some ErrCode.inputFileOpenError },
          if sink then [gdsOpenErrMsg] else [])

/- Scenario for C2: a file with target structure A (one boundary, one
   coordinate pair) followed by an unrelated structure B. -/

def gA : Nat → GCell
  | _ => { name := "A", deps := [] }

def streamC2 : List Rec :=
  [Rec.strname "A", Rec.boundary, Rec.xy [1, 2], Rec.endel, Rec.endstr,
   Rec.strname "B", Rec.boundary, Rec.xy [3, 4], Rec.endel, Rec.endstr, Rec.endlib]

/-- C2 (code bug): target_cell_found is never reset (the ENDSTR handler is
commented out, src/rawcell.cpp:204-221), so after structure A ends, the
boundary of the unrelated structure B still yields the output triple
(3, 4, 1): coordinate-list records contribute triples after the target
structure's end record, refuting the claimed invariant. -/
theorem c2_stray_output_after_target_end :
    get_polygons gA streamC2 true true 50 0 0 0 0 0 none []
      = some ({ factor := 1, tol := 0, tc := true, fp := false, sid := 2,
                acc := [(1, 2, 0), (3, 4, 1)], ec := none }, []) := by
  simp [get_polygons, scanPolys, streamC2, gA, strnameMatch, cstrncmpEq, nulChar,
        xyChunks, mulTrunc_one]

/- Scenario for C3: target structure A with no instances and exactly one
   boundary element whose coordinate list holds N = 2 pairs. -/

def streamC3 : List Rec :=
  [Rec.strname "A", Rec.boundary, Rec.xy [1, 2, 3, 4], Rec.endel, Rec.endstr, Rec.endlib]

/-- C3 (code bug): the XY loop steps by 4 words while reading the pair at
words (i, i+1), so a boundary with N = 2 coordinate pairs produces one
output triple, not two: the pair (3, 4) is skipped.  In general the loop
emits ceil(words/4) triples, i.e. ceil(N/2) instead of N. -/
theorem c3_xy_loop_skips_pairs :
    (get_polygons gA streamC3 true true 50 0 0 0 0 0 none []
      = some ({ factor := 1, tol := 0, tc := true, fp := false, sid := 1,
                acc := [(1, 2, 0)], ec := none }, [])) ∧
    (∀ (factor : ℚ) (pid : Int) (ws : List Int),
      (xyChunks factor pid ws).length = (ws.length + 3) / 4) := by
  constructor
  · simp [get_polygons, scanPolys, streamC3, gA, strnameMatch, cstrncmpEq, nulChar,
          xyChunks, mulTrunc_one]
  · intro factor pid ws
    induction ws using xyChunks.induct factor pid with
    | case1 => rfl
    | case2 x => simp [xyChunks]
    | case3 x y => simp [xyChunks]
    | case4 x y z => simp [xyChunks]
    | case5 x y a b rest ih => simp [xyChunks, ih]; omega

/- ===== C4: depth handling of get_polygons ===== -/

/- Modelled from the spec: an instance-reference record replaced by an
   inert record, used to state that extraction with depth 0 behaves as if
   no reference record were present. -/

def stripRef : Rec → Rec
  | Rec.sref _ => Rec.other
  | Rec.aref _ => Rec.other
  | r => r

theorem scanPolys_depth_ne_zero (g : Nat → GCell) (full : List Rec) :
    ∀ (fuel : Nat) (cid : Nat) (d : Int) (unit : ℚ) (rest : List Rec) (st : ScanSt),
      d ≠ 0 →
      scanPolys g full fuel cid d unit rest st = scanPolys g full fuel cid (-1) unit rest st := by
  intro fuel
  induction fuel with
  | zero => intro cid d unit rest st _; rfl
  | succ n ih =>
    intro cid d unit rest st hd
    cases rest with
    | nil => rfl
    | cons r rest =>
      cases r with
      | units du dm => simp only [scanPolys]; exact ih _ _ _ _ _ hd
      | endlib => rfl
      | strname s => simp only [scanPolys]; exact ih _ _ _ _ _ hd
      | sref s =>
        simp only [scanPolys]
        by_cases htc : st.tc = true
        · rw [if_pos ⟨htc, hd⟩, if_pos ⟨htc, by norm_num⟩]
          split
          · rfl
          · split
            · split
              · rfl
              · exact ih _ _ _ _ _ hd
            · exact ih _ _ _ _ _ hd
        · rw [if_neg (fun h => htc h.1), if_neg (fun h => htc h.1)]
          exact ih _ _ _ _ _ hd
      | aref s =>
        simp only [scanPolys]
        by_cases htc : st.tc = true
        · rw [if_pos ⟨htc, hd⟩, if_pos ⟨htc, by norm_num⟩]
          split
          · rfl
          · split
            · split
              · rfl
              · exact ih _ _ _ _ _ hd
            · exact ih _ _ _ _ _ hd
        · rw [if_neg (fun h => htc h.1), if_neg (fun h => htc h.1)]
          exact ih _ _ _ _ _ hd
      | boundary => simp only [scanPolys]; exact ih _ _ _ _ _ hd
      | box => simp only [scanPolys]; exact ih _ _ _ _ _ hd
      | xy ws =>
        simp only [scanPolys]
        by_cases hfp : st.fp = true
        · rw [if_pos hfp, if_pos hfp]; exact ih _ _ _ _ _ hd
        · rw [if_neg hfp, if_neg hfp]; exact ih _ _ _ _ _ hd
      | endel => simp only [scanPolys]; exact ih _ _ _ _ _ hd
      | endstr => simp only [scanPolys]; exact ih _ _ _ _ _ hd
      | other => simp only [scanPolys]; exact ih _ _ _ _ _ hd

theorem scanPolys_depth_zero_strip (g : Nat → GCell) :
    ∀ (fuel : Nat) (full full' : List Rec) (cid : Nat) (unit : ℚ) (rest : List Rec) (st : ScanSt),
      scanPolys g full fuel cid 0 unit rest st
        = scanPolys g full' fuel cid 0 unit (rest.map stripRef) st := by
  intro fuel
  induction fuel with
  | zero => intro full full' cid unit rest st; rfl
  | succ n ih =>
    intro full full' cid unit rest st
    cases rest with
    | nil => rfl
    | cons r rest =>
      cases r with
      | units du dm => simp only [List.map, stripRef, scanPolys]; exact ih _ _ _ _ _ _
      | endlib => simp only [List.map, stripRef, scanPolys]
      | strname s => simp only [List.map, stripRef, scanPolys]; exact ih _ _ _ _ _ _
      | sref s =>
        simp only [List.map, stripRef, scanPolys]
        rw [if_neg (by simp)]
        exact ih _ _ _ _ _ _
      | aref s =>
        simp only [List.map, stripRef, scanPolys]
        rw [if_neg (by simp)]
        exact ih _ _ _ _ _ _
      | boundary => simp only [List.map, stripRef, scanPolys]; exact ih _ _ _ _ _ _
      | box => simp only [List.map, stripRef, scanPolys]; exact ih _ _ _ _ _ _
      | xy ws =>
        simp only [List.map, stripRef, scanPolys]
        by_cases hfp : st.fp = true
        · rw [if_pos hfp, if_pos hfp]; exact ih _ _ _ _ _ _
        · rw [if_neg hfp, if_neg hfp]; exact ih _ _ _ _ _ _
      | endel => simp only [List.map, stripRef, scanPolys]; exact ih _ _ _ _ _ _
      | endstr => simp only [List.map, stripRef, scanPolys]; exact ih _ _ _ _ _ _
      | other => simp only [List.map, stripRef, scanPolys]; exact ih _ _ _ _ _ _

theorem get_polygons_depth_irrel (g : Nat → GCell) (stream : List Rec) (openOk sink : Bool)
    (fuel : Nat) (cid : Nat) (sid : Int) (unit tol : ℚ) (ec : Option ErrCode)
    (acc : List (Int × Int × Int)) (d : Int) (hd : d ≠ 0) :
    get_polygons g stream openOk sink fuel cid sid d unit tol ec acc
      = get_polygons g stream openOk sink fuel cid sid (-1) unit tol ec acc := by
  unfold get_polygons
  cases openOk with
  | false => rfl
  | true =>
    simp only [if_pos rfl]
    rw [scanPolys_depth_ne_zero g stream fuel cid d unit stream _ hd]

theorem get_polygons_depth_zero (g : Nat → GCell) (stream : List Rec) (openOk sink : Bool)
    (fuel : Nat) (cid : Nat) (sid : Int) (unit tol : ℚ) (ec : Option ErrCode)
    (acc : List (Int × Int × Int)) :
    get_polygons g stream openOk sink fuel cid sid 0 unit tol ec acc
      = get_polygons g (stream.map stripRef) openOk sink fuel cid sid 0 unit tol ec acc := by
  unfold get_polygons
  cases openOk with
  | false => rfl
  | true =>
    simp only [if_pos rfl]
    rw [scanPolys_depth_zero_strip g fuel stream (stream.map stripRef) cid unit stream _]

/- Scenario for C4: A instantiates B, B instantiates C, C holds one
   boundary with one coordinate pair (5, 6).  The structures appear in the
   file in the order C, B, A so that the scan for target A is not polluted
   by the missing ENDSTR reset. -/

def gChain : Nat → GCell
  | 0 => { name := "A", deps := [1] }
  | 1 => { name := "B", deps := [2] }
  | _ => { name := "C", deps := [] }

def streamChain : List Rec :=
  [Rec.strname "C", Rec.boundary, Rec.xy [5, 6], Rec.endel, Rec.endstr,
   Rec.strname "B", Rec.sref "C", Rec.endstr,
   Rec.strname "A", Rec.sref "B", Rec.endstr, Rec.endlib]

theorem chain_eval_depth_one :
    get_polygons gChain streamChain true true 50 0 0 1 0 0 none []
      = some ({ factor := 1, tol := 0, tc := true, fp := false, sid := 1,
                acc := [(5, 6, 0)], ec := none }, []) := by
  simp [get_polygons, scanPolys, streamChain, gChain, strnameMatch, cstrncmpEq, nulChar,
        xyChunks, mulTrunc_one, getDepsList, mapGet, mapSet]

/-- C4 (counterexample): extracting the chain A -> B -> C with depth = 1
emits the polygon of the grandchild C, triple (5, 6, 0).  Under the claim,
the expansion of B would run with depth decremented to 0 and C would not
be expanded, so the output would contain no triple: the recursion in fact
passes the literal depth -1 (src/rawcell.cpp:176), refuting the claim. -/
theorem c4_counterexample_depth_not_decremented :
    get_polygons gChain streamChain true true 50 0 0 1 0 0 none []
      = some ({ factor := 1, tol := 0, tc := true, fp := false, sid := 1,
                acc := [(5, 6, 0)], ec := none }, []) :=
  chain_eval_depth_one

/- The cyclic case that rules out any universal expansion guarantee for
   depth -1: the mutual cycle A <-> B of gAB, with A placed in the file
   holding one instance reference to B.  At any nonzero depth the SREF
   handler first computes the transitive dependency map of the target
   (src/rawcell.cpp:169), which never terminates on the cycle (see
   gAB_cycle_none), so the extraction itself never terminates. -/

def streamCyc : List Rec :=
  [Rec.strname "A", Rec.sref "B", Rec.endstr, Rec.endlib]

theorem cyc_expansion_diverges (fuel : Nat) (sink : Bool) :
    get_polygons gAB streamCyc true sink fuel 0 0 (-1) 0 0 none [] = none := by
  match fuel with
  | 0 => rfl
  | 1 =>
    simp [get_polygons, scanPolys, streamCyc, gAB, strnameMatch, cstrncmpEq, nulChar]
  | n + 2 =>
    have h1 := (gAB_cycle_none n).2
    simp [get_polygons, scanPolys, streamCyc, gAB, strnameMatch, cstrncmpEq, nulChar, h1]

/-- C4 (amended): a depth argument of 0 causes no instance reference to be
expanded even when present (the scan result is unchanged when every
reference record is replaced by an inert record), and every recursive
expansion is invoked with the literal depth -1 regardless of the caller's
depth, so extraction with any nonzero depth equals extraction with the
unlimited sentinel -1.  The original universal "depth -1 expands every
transitively reachable structure" holds in no general form: on the
concrete acyclic chain A -> B -> C depth -1 does expand both transitively
referenced structures, emitting the grandchild's polygon, but on the
mutual cycle A <-> B the expansion's dependency computation diverges and
the extraction returns no result for every recursion bound. -/
theorem c4_depth_semantics (g : Nat → GCell) (stream : List Rec) (openOk sink : Bool)
    (fuel : Nat) (cid : Nat) (sid : Int) (unit tol : ℚ) (ec : Option ErrCode)
    (acc : List (Int × Int × Int)) (d : Int) (hd : d ≠ 0) :
    (get_polygons g stream openOk sink fuel cid sid 0 unit tol ec acc
      = get_polygons g (stream.map stripRef) openOk sink fuel cid sid 0 unit tol ec acc) ∧
    (get_polygons g stream openOk sink fuel cid sid d unit tol ec acc
      = get_polygons g stream openOk sink fuel cid sid (-1) unit tol ec acc) ∧
    (get_polygons gChain streamChain true true 50 0 0 (-1) 0 0 none []
      = some ({ factor := 1, tol := 0, tc := true, fp := false, sid := 1,
                acc := [(5, 6, 0)], ec := none }, [])) ∧
    (∀ fuel2 : Nat, get_polygons gAB streamCyc true true fuel2 0 0 (-1) 0 0 none [] = none) :=
  ⟨get_polygons_depth_zero g stream openOk sink fuel cid sid unit tol ec acc,
   get_polygons_depth_irrel g stream openOk sink fuel cid sid unit tol ec acc d hd,
   (get_polygons_depth_irrel gChain streamChain true true 50 0 0 0 0 none [] 1
      (by norm_num)).symm.trans chain_eval_depth_one,
   fun fuel2 => cyc_expansion_diverges fuel2 true⟩

/-- Witness for C4 at depth 7 on the chain scenario. -/
theorem c4_witness :
    ((7 : Int) ≠ 0) ∧
    ((get_polygons gChain streamChain true true 50 0 0 0 0 0 none []
      = get_polygons gChain (streamChain.map stripRef) true true 50 0 0 0 0 0 none []) ∧
    (get_polygons gChain streamChain true true 50 0 0 7 0 0 none []
      = get_polygons gChain streamChain true true 50 0 0 (-1) 0 0 none []) ∧
    (get_polygons gChain streamChain true true 50 0 0 (-1) 0 0 none []
      = some ({ factor := 1, tol := 0, tc := true, fp := false, sid := 1,
                acc := [(5, 6, 0)], ec := none }, [])) ∧
    (∀ fuel2 : Nat, get_polygons gAB streamCyc true true fuel2 0 0 (-1) 0 0 none [] = none)) :=
  ⟨by norm_num,
   c4_depth_semantics gChain streamChain true true 50 0 0 0 0 none [] 7 (by norm_num)⟩

/- ===== Whole-file loader: read_rawcells (src/rawcell.cpp:254-365) ===== -/

/- A dependency slot of a cell under load: the pointer-sized
   string-as-placeholder trick of the source is modelled as a tagged slot,
   a pending raw name before resolution or a resolved reference identified
   by the unique map key (cell name) it points to. -/

inductive DepSlot where
  | pending (s : String)
  | resolved (s : String)
  deriving DecidableEq

/- A structure entity during loading: optional name (assigned at STRNAME),
   byte offset of its BGNSTR record, accumulated byte size, dependency
   slots.  The shared-source reference counting is a resource-management
   aspect not reflected in the returned data and is not modelled. -/

structure LCell where
  name : Option String
  offset : Nat
  size : Nat
  deps : List DepSlot
  deriving DecidableEq

abbrev LMap := List (String × LCell)

def lmapGet : LMap → String → Option LCell
  | [], _ => none
  | (k, v) :: rest, key => if k = key then some v else lmapGet rest key

def lmapSet : LMap → String → LCell → LMap
  | [], key, v => [(key, v)]
  | (k, v') :: rest, key, v =>
    if k = key then (k, v) :: rest else (k, v') :: lmapSet rest key v

def lmapKeys (m : LMap) : List String := m.map Prod.fst

/- Records as dispatched by the loader switch on buffer[2]: ENDLIB 0x04,
   BGNSTR 0x05, STRNAME 0x06, ENDSTR 0x07, SNAME 0x12, anything else.
   len is the full record length (header included) as delivered by the
   record reader; name payloads are carried as strings with the trailing
   pad NUL already stripped. -/

inductive RRec where
  | endlib
  | bgnstr (len : Nat)
  | strname (s : String) (len : Nat)
  | endstr (len : Nat)
  | sname (s : String) (len : Nat)
  | other (len : Nat)
  deriving DecidableEq

/- In the source the map entry and the open cell are the same object
   through a pointer; the functional model keeps the currently open cell
   separate and writes it back to the map at every point where the map is
   read or the cell closed. -/

def flushCur : Option LCell → LMap → LMap
  | none, m => m
  | some c, m =>
    match c.name with
    | none => m
    | some n => lmapSet m n c

/- Array::remove_unordered: overwrite index i with the last element and
   drop the last slot. -/

def removeUnordered (l : List DepSlot) (i : Nat) : List DepSlot :=
  (l.set i ((l.getLast?).getD (DepSlot.pending ""))).dropLast

def missingRefMsg (n : String) : String := "[GDSTK] Referenced cell " ++ n ++ " not found."

def invalidFileMsg : String := "[GDSTK] Invalid GDSII file."

/- The ENDLIB resolution loop over one cell's dependency slots
   (src/rawcell.cpp:282-300): read the slot's raw name, look it up in the
   whole-file map; if found and an equal resolved reference is already in
   the list, remove the slot unordered; if found otherwise, resolve the
   slot in place and advance; if missing, remove the slot unordered and
   report MissingReference (diagnostic only when the sink is present).
   All slots are pending when the pass starts; a resolved slot can never
   be read back as a raw name in the single pass (doing so would be
   undefined in C), so that unreachable branch just advances. -/

def resolveLoop (sink : Bool) (m : LMap) (deps : List DepSlot) (i : Nat)
    (ec : Option ErrCode) (log : List String) :
    List DepSlot × Option ErrCode × List String :=
  if h : i < deps.length then
    match deps.get ⟨i, h⟩ with
    | DepSlot.pending n =>
      match lmapGet m n with
      | some _ =>
        if DepSlot.resolved n ∈ deps then
          resolveLoop sink m (removeUnordered deps i) i ec log
        else
          resolveLoop sink m (deps.set i (DepSlot.resolved n)) (i + 1) ec log
      | none =>
        resolveLoop sink m (removeUnordered deps i) i (some ErrCode.missingReference)
          (log ++ if sink then [missingRefMsg n] else [])
    | DepSlot.resolved _ => resolveLoop sink m deps (i + 1) ec log
  else (deps, ec, log)
termination_by deps.length - i
decreasing_by
  · simp only [removeUnordered, List.length_dropLast, List.length_set]; omega
  · simp only [List.length_set]; omega
  · simp only [removeUnordered, List.length_dropLast, List.length_set]; omega
  · omega

/- The ENDLIB pass over every map entry, threading the error code and the
   diagnostic log; lookups go through the full map m, whose keys are not
   changed by the pass. -/

def resolveCells (sink : Bool) (m : LMap) :
    List (String × LCell) → Option ErrCode → List String →
    List (String × LCell) × Option ErrCode × List String
  | [], ec, log => ([], ec, log)
  | (n, c) :: rest, ec, log =>
    match resolveLoop sink m c.deps 0 ec log with
    | (deps2, ec2, log2) =>
      match resolveCells sink m rest ec2 log2 with
      | (rest2, ec3, log3) => ((n, { c with deps := deps2 }) :: rest2, ec3, log3)

/- The teardown loop run when the stream ends before ENDLIB
   (src/rawcell.cpp:349-361): for each cell, free the raw name slots in a
   loop whose index is never advanced and whose slots are never removed —
   the loop exits only when the slot count is zero on entry, otherwise it
   repeats forever.  Afterwards (when reached) every cell is cleared, the
   map is emptied, an invalid-file diagnostic is emitted when the sink is
   present, and the error code (first set to the read error) is
   overwritten with InvalidFile. -/

def teardownCell : Nat → List DepSlot → Option Unit
  | 0, _ => none
  | fuel + 1, deps => if deps = [] then some () else teardownCell fuel deps

def teardownCells (fuel : Nat) : List (String × LCell) → Option Unit
  | [] => some ()
  | (_, c) :: rest =>
    match teardownCell fuel c.deps with
    | none => none
    | some _ => teardownCells fuel rest

def teardown (sink : Bool) (fuel : Nat) (m : LMap) (log : List String) :
    Option (LMap × Option ErrCode × List String) :=
  match teardownCells fuel m with
  | none => none
  | some _ =>
    some ([], some ErrCode.invalidFile, log ++ if sink then [invalidFileMsg] else [])

/- The record loop of read_rawcells.  pos is the cumulative byte position
   (ftell); reaching the end of the record list without ENDLIB stands for
   the record reader failing and leads to the teardown path. -/

def loadLoop (sink : Bool) (fuel : Nat) :
    List RRec → Nat → Option LCell → LMap → Option ErrCode → List String →
    Option (LMap × Option ErrCode × List String)
  | [], _, cur, m, _, log => teardown sink fuel (flushCur cur m) log
  | r :: rest, pos, cur, m, ec, log =>
    match r with
    | RRec.endlib =>
      match resolveCells sink (flushCur cur m) (flushCur cur m) ec log with
      | (m2, ec2, log2) => some (m2, ec2, log2)
    | RRec.bgnstr len =>
      loadLoop sink fuel rest (pos + len)
        (some { name := none, offset := pos, size := len, deps := [] }) (flushCur cur m) ec log
    | RRec.strname s len =>
      match cur with
      | some c =>
        loadLoop sink fuel rest (pos + len)
          (some { c with name := some s, size := c.size + len }) m ec log
      | none => loadLoop sink fuel rest (pos + len) none m ec log
    | RRec.endstr len =>
      match cur with
      | some c =>
        loadLoop sink fuel rest (pos + len) none
          (flushCur (some { c with size := c.size + len }) m) ec log
      | none => loadLoop sink fuel rest (pos + len) none m ec log
    | RRec.sname s len =>
      match cur with
      | some c =>
        loadLoop sink fuel rest (pos + len)
          (some { c with deps := c.deps ++ [DepSlot.pending s], size := c.size + len }) m ec log
      | none => loadLoop sink fuel rest (pos + len) none m ec log
    | RRec.other len =>
      match cur with
      | some c =>
        loadLoop sink fuel rest (pos + len) (some { c with size := c.size + len }) m ec log
      | none => loadLoop sink fuel rest (pos + len) none m ec log

/- Entry point of read_rawcells: openOk models whether fopen succeeds;
   sink models the presence of the process-wide diagnostic stream.  The
   returned triple is the structure map, the error-code cell and the
   diagnostic lines written to the sink; none means the run does not
   terminate. -/

def read_rawcells (openOk sink : Bool) (fuel : Nat) (recs : List RRec) :
    Option (LMap × Option ErrCode × List String) :=
  if openOk then loadLoop sink fuel recs 0 none [] none []
  else some ([], some ErrCode.inputFileOpenError, if sink then [gdsOpenErrMsg] else [])

theorem teardownCell_nonempty : ∀ (fuel : Nat) (deps : List DepSlot), deps ≠ [] →
    teardownCell fuel deps = none := by
  intro fuel
  induction fuel with
  | zero => intro deps _; rfl
  | succ n ih =>
    intro deps h
    rw [teardownCell, if_neg h]
    exact ih deps h

/- Scenario for C5: the stream ends (read failure) right after one
   structure with one dependency-declaring record. -/

def recs5 : List RRec := [RRec.bgnstr 28, RRec.strname "A" 10, RRec.sname "B" 8]

/-- C5 (code bug): when the scan ends before ENDLIB, the teardown loop over
a cell's dependency slots never advances its index and never removes a
slot (src/rawcell.cpp:353-356 has no increment), so for a partially built
state with a non-empty dependency list the teardown loops forever
(repeatedly freeing slot 0) instead of clearing the map and reporting
InvalidFile: the model returns none for every fuel bound. -/
theorem c5_teardown_diverges (sink : Bool) (fuel : Nat) :
    read_rawcells true sink fuel recs5 = none := by
  show loadLoop sink fuel recs5 0 none [] none [] = none
  have h := teardownCell_nonempty fuel [DepSlot.pending "B"] (by simp)
  simp [recs5, loadLoop, flushCur, lmapSet, teardown, teardownCells, h]

/- ===== Resolution-pass lemmas ===== -/

theorem lmapGet_lmapSet_self (m : LMap) (k : String) (v : LCell) :
    lmapGet (lmapSet m k v) k = some v := by
  induction m with
  | nil => simp [lmapGet, lmapSet]
  | cons p rest ih =>
    obtain ⟨k', v'⟩ := p
    by_cases h : k' = k
    · subst h; simp [lmapGet, lmapSet]
    · simp [lmapGet, lmapSet, h, ih]

theorem lmapGet_lmapSet_ne (m : LMap) (k key : String) (v : LCell) (h : key ≠ k) :
    lmapGet (lmapSet m k v) key = lmapGet m key := by
  induction m with
  | nil => simp [lmapGet, lmapSet, Ne.symm h]
  | cons p rest ih =>
    obtain ⟨k', v'⟩ := p
    by_cases hk : k' = k
    · subst hk; simp [lmapGet, lmapSet, Ne.symm h]
    · simp [lmapGet, lmapSet, hk, ih]

theorem lmapGet_isSome_iff (m : LMap) (k : String) :
    (lmapGet m k).isSome = true ↔ k ∈ lmapKeys m := by
  induction m with
  | nil => simp [lmapGet, lmapKeys]
  | cons p rest ih =>
    obtain ⟨k', v'⟩ := p
    by_cases h : k' = k
    · subst h; simp [lmapGet, lmapKeys]
    · simp [lmapGet, lmapKeys, h, ih, Ne.symm h]

theorem lmapKeys_lmapSet_fresh (m : LMap) (k : String) (v : LCell) (h : k ∉ lmapKeys m) :
    lmapKeys (lmapSet m k v) = lmapKeys m ++ [k] := by
  induction m with
  | nil => simp [lmapKeys, lmapSet]
  | cons p rest ih =>
    obtain ⟨k', v'⟩ := p
    simp only [lmapKeys, List.map_cons, List.mem_cons] at h
    push_neg at h
    obtain ⟨hk, hrest⟩ := h
    show lmapKeys (if k' = k then (k', v) :: rest else (k', v') :: lmapSet rest k v)
      = (k' :: List.map Prod.fst rest) ++ [k]
    rw [if_neg (fun hh => hk hh.symm)]
    show k' :: lmapKeys (lmapSet rest k v) = (k' :: List.map Prod.fst rest) ++ [k]
    rw [ih hrest]
    rfl

theorem lmapSet_mem (m : LMap) (k : String) (v : LCell) :
    ∀ p ∈ lmapSet m k v, p ∈ m ∨ p = (k, v) := by
  induction m with
  | nil => simp [lmapSet]
  | cons q rest ih =>
    obtain ⟨k', v'⟩ := q
    intro p hp
    by_cases h : k' = k
    · subst h
      simp only [lmapSet, if_pos rfl] at hp
      rcases List.mem_cons.mp hp with h1 | h1
      · right; exact h1
      · left; exact List.mem_cons_of_mem _ h1
    · simp only [lmapSet, if_neg h] at hp
      rcases List.mem_cons.mp hp with h1 | h1
      · left; exact h1 ▸ List.mem_cons_self _ _
      · rcases ih p h1 with h2 | h2
        · left; exact List.mem_cons_of_mem _ h2
        · right; exact h2

theorem lmapGet_mem (m : LMap) (k : String) (v : LCell) (h : lmapGet m k = some v) :
    (k, v) ∈ m := by
  induction m with
  | nil => simp [lmapGet] at h
  | cons p rest ih =>
    obtain ⟨k', v'⟩ := p
    by_cases hk : k' = k
    · subst hk
      have h2 : some v' = some v := by
        rw [← h]; simp [lmapGet]
      cases h2
      exact List.mem_cons_self _ _
    · rw [show lmapGet ((k', v') :: rest) k = lmapGet rest k from by simp [lmapGet, hk]] at h
      exact List.mem_cons_of_mem _ (ih h)

theorem getLastD_mem (l : List DepSlot) (h : l ≠ []) :
    (l.getLast?).getD (DepSlot.pending "") ∈ l := by
  rw [List.getLast?_eq_getLast l h]
  simp only [Option.getD_some]
  exact List.getLast_mem h

theorem getLastD_eq_get (l : List DepSlot) (h : 0 < l.length) :
    (l.getLast?).getD (DepSlot.pending "")
      = l.get ⟨l.length - 1, by omega⟩ := by
  rw [List.getLast?_eq_getElem?, List.getElem?_eq_getElem (by omega)]
  simp [List.get_eq_getElem]

theorem removeUnordered_length (l : List DepSlot) (i : Nat) :
    (removeUnordered l i).length = l.length - 1 := by
  simp [removeUnordered]

theorem removeUnordered_mem (l : List DepSlot) (i : Nat) (hne : l ≠ []) :
    ∀ s ∈ removeUnordered l i, s ∈ l := by
  intro s hs
  have hs2 : s ∈ l.set i ((l.getLast?).getD (DepSlot.pending "")) :=
    (List.dropLast_sublist _).subset hs
  rcases List.mem_or_eq_of_mem_set hs2 with h | h
  · exact h
  · exact h ▸ getLastD_mem l hne

theorem removeUnordered_get_lt (l : List DepSlot) (i j : Nat)
    (hj : j < (removeUnordered l i).length) (hji : j ≠ i) :
    (removeUnordered l i).get ⟨j, hj⟩
      = l.get ⟨j, by have := removeUnordered_length l i; omega⟩ := by
  have h1 : j < l.length - 1 := by have := removeUnordered_length l i; omega
  simp only [removeUnordered, List.get_eq_getElem]
  rw [List.getElem_dropLast, List.getElem_set_ne (fun hh => hji hh.symm)]

theorem removeUnordered_get_moved (l : List DepSlot) (i : Nat)
    (hi : i < (removeUnordered l i).length) :
    (removeUnordered l i).get ⟨i, hi⟩
      = l.get ⟨l.length - 1, by have := removeUnordered_length l i; omega⟩ := by
  have hlen : 0 < l.length := by have := removeUnordered_length l i; omega
  simp only [removeUnordered, List.get_eq_getElem]
  rw [List.getElem_dropLast, List.getElem_set]
  rw [if_pos rfl, getLastD_eq_get l hlen]
  simp [List.get_eq_getElem]

/- Every slot that the resolution loop leaves in the list at an index
   below the cursor is resolved; since the loop only stops with the cursor
   at or past the end, the final list is entirely resolved. -/

theorem resolveLoop_all_resolved (sink : Bool) (m : LMap) :
    ∀ (meas : Nat) (deps : List DepSlot) (i : Nat) (ec : Option ErrCode) (log : List String),
      deps.length - i ≤ meas →
      (∀ (j : Nat) (hj : j < deps.length), j < i →
        ∃ nm, deps.get ⟨j, hj⟩ = DepSlot.resolved nm) →
      ∀ s ∈ (resolveLoop sink m deps i ec log).1, ∃ nm, s = DepSlot.resolved nm := by
  intro meas
  induction meas with
  | zero =>
    intro deps i ec log hmeas hpre s hs
    rw [resolveLoop, dif_neg (by omega)] at hs
    have hs2 : s ∈ deps := hs
    obtain ⟨⟨j, hj⟩, rfl⟩ := List.mem_iff_get.mp hs2
    exact hpre j hj (by omega)
  | succ k ih =>
    intro deps i ec log hmeas hpre s hs
    by_cases hi : i < deps.length
    case neg =>
      rw [resolveLoop, dif_neg hi] at hs
      have hs2 : s ∈ deps := hs
      obtain ⟨⟨j, hj⟩, rfl⟩ := List.mem_iff_get.mp hs2
      exact hpre j hj (by omega)
    case pos =>
      rw [resolveLoop, dif_pos hi] at hs
      split at hs
      case h_1 nm hslot =>
        split at hs
        case h_1 c hlook =>
          split at hs
          case isTrue hmem =>
            refine ih (removeUnordered deps i) i ec log ?_ ?_ s hs
            · rw [removeUnordered_length]; omega
            · intro j hj hji
              rw [removeUnordered_get_lt deps i j hj (by omega)]
              exact hpre j _ hji
          case isFalse hmem =>
            refine ih (deps.set i (DepSlot.resolved nm)) (i + 1) ec log ?_ ?_ s hs
            · rw [List.length_set]; omega
            · intro j hj hji
              rw [List.length_set] at hj
              by_cases hij : j = i
              · subst hij
                refine ⟨nm, ?_⟩
                simp [List.get_eq_getElem, List.getElem_set]
              · refine (?_ : _ → _) (hpre j hj (by omega))
                intro h
                simpa [List.get_eq_getElem,
                  List.getElem_set_ne (fun hh => hij hh.symm)] using h
        case h_2 hlook =>
          refine ih (removeUnordered deps i) i (some ErrCode.missingReference) _ ?_ ?_ s hs
          · rw [removeUnordered_length]; omega
          · intro j hj hji
            rw [removeUnordered_get_lt deps i j hj (by omega)]
            exact hpre j _ hji
      case h_2 nm hslot =>
        refine ih deps (i + 1) ec log (by omega) ?_ s hs
        intro j hj hji
        by_cases hij : j = i
        · subst hij
          exact ⟨nm, by simpa using hslot⟩
        · exact hpre j hj (by omega)

/- A resolved slot in the loop's output either was already in the list or
   was created from a successful lookup: if every resolved slot of the
   input points to a present key, so does every resolved slot of the
   output. -/

theorem resolveLoop_resolved_present (sink : Bool) (m : LMap) :
    ∀ (meas : Nat) (deps : List DepSlot) (i : Nat) (ec : Option ErrCode) (log : List String),
      deps.length - i ≤ meas →
      (∀ n : String, DepSlot.resolved n ∈ deps → (lmapGet m n).isSome = true) →
      ∀ n : String, DepSlot.resolved n ∈ (resolveLoop sink m deps i ec log).1 →
        (lmapGet m n).isSome = true := by
  intro meas
  induction meas with
  | zero =>
    intro deps i ec log hmeas hin n hn
    rw [resolveLoop, dif_neg (by omega)] at hn
    exact hin n hn
  | succ k ih =>
    intro deps i ec log hmeas hin n hn
    by_cases hi : i < deps.length
    case neg =>
      rw [resolveLoop, dif_neg hi] at hn
      exact hin n hn
    case pos =>
      have hne : deps ≠ [] := by
        intro h; rw [h] at hi; simp at hi
      rw [resolveLoop, dif_pos hi] at hn
      split at hn
      case h_1 nm hslot =>
        split at hn
        case h_1 c hlook =>
          split at hn
          case isTrue hmem =>
            refine ih (removeUnordered deps i) i ec log ?_ ?_ n hn
            · rw [removeUnordered_length]; omega
            · intro n2 hn2
              exact hin n2 (removeUnordered_mem deps i hne _ hn2)
          case isFalse hmem =>
            refine ih (deps.set i (DepSlot.resolved nm)) (i + 1) ec log ?_ ?_ n hn
            · rw [List.length_set]; omega
            · intro n2 hn2
              rcases List.mem_or_eq_of_mem_set hn2 with h | h
              · exact hin n2 h
              · cases h
                rw [hlook]; rfl
        case h_2 hlook =>
          refine ih (removeUnordered deps i) i (some ErrCode.missingReference) _ ?_ ?_ n hn
          · rw [removeUnordered_length]; omega
          · intro n2 hn2
            exact hin n2 (removeUnordered_mem deps i hne _ hn2)
      case h_2 nm hslot =>
        exact ih deps (i + 1) ec log (by omega) hin n hn

/- Once the error code holds MissingReference, the loop never writes a
   different value. -/

theorem resolveLoop_sticky_aux (sink : Bool) (m : LMap) :
    ∀ (meas : Nat) (deps : List DepSlot) (i : Nat) (log : List String),
      deps.length - i ≤ meas →
      (resolveLoop sink m deps i (some ErrCode.missingReference) log).2.1
        = some ErrCode.missingReference := by
  intro meas
  induction meas with
  | zero =>
    intro deps i log hmeas
    rw [resolveLoop, dif_neg (by omega)]
  | succ k ih =>
    intro deps i log hmeas
    by_cases hi : i < deps.length
    case neg => rw [resolveLoop, dif_neg hi]
    case pos =>
      rw [resolveLoop, dif_pos hi]
      split
      case h_1 nm hslot =>
        split
        case h_1 c hlook =>
          split
          case isTrue hmem =>
            exact ih (removeUnordered deps i) i log (by rw [removeUnordered_length]; omega)
          case isFalse hmem =>
            exact ih (deps.set i (DepSlot.resolved nm)) (i + 1) log
              (by rw [List.length_set]; omega)
        case h_2 hlook =>
          exact ih (removeUnordered deps i) i _ (by rw [removeUnordered_length]; omega)
      case h_2 nm hslot =>
        exact ih deps (i + 1) log (by omega)

theorem resolveLoop_sticky (sink : Bool) (m : LMap) (deps : List DepSlot) (i : Nat)
    (log : List String) :
    (resolveLoop sink m deps i (some ErrCode.missingReference) log).2.1
      = some ErrCode.missingReference :=
  resolveLoop_sticky_aux sink m (deps.length - i) deps i log (le_refl _)

/- If some slot at or past the cursor is a pending name that is absent
   from the map, the loop reports MissingReference. -/

theorem resolveLoop_missing_hit (sink : Bool) (m : LMap) :
    ∀ (meas : Nat) (deps : List DepSlot) (i : Nat) (ec : Option ErrCode) (log : List String),
      deps.length - i ≤ meas →
      (∃ (j : Nat) (hj : j < deps.length), i ≤ j ∧
        ∃ nm, deps.get ⟨j, hj⟩ = DepSlot.pending nm ∧ lmapGet m nm = none) →
      (resolveLoop sink m deps i ec log).2.1 = some ErrCode.missingReference := by
  intro meas
  induction meas with
  | zero =>
    intro deps i ec log hmeas hbad
    obtain ⟨j, hj, hij, nm, hslot, hlook⟩ := hbad
    omega
  | succ k ih =>
    intro deps i ec log hmeas hbad
    obtain ⟨j, hj, hij, nm, hslot, hlook⟩ := hbad
    have hi : i < deps.length := by omega
    rw [resolveLoop, dif_pos hi]
    split
    case h_1 nm0 hslot0 =>
      split
      case h_1 c hlook0 =>
        by_cases hji : j = i
        · subst hji
          rw [hslot0] at hslot
          cases hslot
          rw [hlook0] at hlook
          cases hlook
        · have hij2 : i < j := by omega
          split
          next hmem =>
            refine ih (removeUnordered deps i) i ec log
              (by rw [removeUnordered_length]; omega) ?_
            by_cases hlast : j = deps.length - 1
            · refine ⟨i, ?_, le_refl i, nm, ?_, hlook⟩
              · rw [removeUnordered_length]; omega
              · rw [removeUnordered_get_moved]
                subst hlast
                exact hslot
            · refine ⟨j, ?_, by omega, nm, ?_, hlook⟩
              · rw [removeUnordered_length]; omega
              · rw [removeUnordered_get_lt deps i j _ (by omega)]
                exact hslot
          next hmem =>
            refine ih (deps.set i (DepSlot.resolved nm0)) (i + 1) ec log
              (by rw [List.length_set]; omega) ?_
            refine ⟨j, by rw [List.length_set]; omega, by omega, nm, ?_, hlook⟩
            simp only [List.get_eq_getElem]
            rw [List.getElem_set_ne (by omega)]
            simpa [List.get_eq_getElem] using hslot
      case h_2 hlook0 =>
        exact resolveLoop_sticky sink m _ _ _
    case h_2 nm0 hslot0 =>
      have hji : j ≠ i := by
        intro h
        subst h
        rw [hslot0] at hslot
        cases hslot
      exact ih deps (i + 1) ec log (by omega) ⟨j, hj, by omega, nm, hslot, hlook⟩

theorem resolveCells_length (sink : Bool) (m : LMap) :
    ∀ (l : List (String × LCell)) (ec : Option ErrCode) (log : List String),
      (resolveCells sink m l ec log).1.length = l.length := by
  intro l
  induction l with
  | nil => intro ec log; rfl
  | cons q rest ih =>
    obtain ⟨n, c⟩ := q
    intro ec log
    show ((n, { c with deps := (resolveLoop sink m c.deps 0 ec log).1 }) ::
      (resolveCells sink m rest (resolveLoop sink m c.deps 0 ec log).2.1
        (resolveLoop sink m c.deps 0 ec log).2.2).1).length = rest.length + 1
    simp [ih]

theorem resolveCells_keys (sink : Bool) (m : LMap) :
    ∀ (l : List (String × LCell)) (ec : Option ErrCode) (log : List String),
      (resolveCells sink m l ec log).1.map Prod.fst = l.map Prod.fst := by
  intro l
  induction l with
  | nil => intro ec log; rfl
  | cons q rest ih =>
    obtain ⟨n, c⟩ := q
    intro ec log
    show ((n, { c with deps := (resolveLoop sink m c.deps 0 ec log).1 }) ::
      (resolveCells sink m rest (resolveLoop sink m c.deps 0 ec log).2.1
        (resolveLoop sink m c.deps 0 ec log).2.2).1).map Prod.fst = n :: rest.map Prod.fst
    simp [ih]

theorem resolveCells_slots (sink : Bool) (m : LMap) :
    ∀ (l : List (String × LCell)) (ec : Option ErrCode) (log : List String),
      (∀ p ∈ l, ∀ s ∈ (p : String × LCell).2.deps, ∃ nm, s = DepSlot.pending nm) →
      ∀ p ∈ (resolveCells sink m l ec log).1, ∀ s ∈ (p : String × LCell).2.deps,
        ∃ k2, s = DepSlot.resolved k2 ∧ (lmapGet m k2).isSome = true := by
  intro l
  induction l with
  | nil =>
    intro ec log hin p hp
    cases hp
  | cons q rest ih =>
    obtain ⟨n, c⟩ := q
    intro ec log hin p hp
    have hp2 : p ∈ (n, { c with deps := (resolveLoop sink m c.deps 0 ec log).1 }) ::
        (resolveCells sink m rest (resolveLoop sink m c.deps 0 ec log).2.1
          (resolveLoop sink m c.deps 0 ec log).2.2).1 := hp
    rcases List.mem_cons.mp hp2 with rfl | hmem
    · intro s hs
      have hs2 : s ∈ (resolveLoop sink m c.deps 0 ec log).1 := hs
      obtain ⟨k2, hk2⟩ := resolveLoop_all_resolved sink m c.deps.length c.deps 0 ec log
        (by omega) (by intro j hj hji; omega) s hs2
      refine ⟨k2, hk2, ?_⟩
      refine resolveLoop_resolved_present sink m c.deps.length c.deps 0 ec log
        (by omega) ?_ k2 (hk2 ▸ hs2)
      intro n2 hn2
      obtain ⟨nm, hnm⟩ := hin (n, c) (List.mem_cons_self _ _) _ hn2
      simp at hnm
    · exact ih _ _ (fun p2 hp3 => hin p2 (List.mem_cons_of_mem _ hp3)) p hmem

theorem resolveCells_sticky (sink : Bool) (m : LMap) :
    ∀ (l : List (String × LCell)) (log : List String),
      (resolveCells sink m l (some ErrCode.missingReference) log).2.1
        = some ErrCode.missingReference := by
  intro l
  induction l with
  | nil => intro log; rfl
  | cons q rest ih =>
    obtain ⟨n, c⟩ := q
    intro log
    show (resolveCells sink m rest
      (resolveLoop sink m c.deps 0 (some ErrCode.missingReference) log).2.1
      (resolveLoop sink m c.deps 0 (some ErrCode.missingReference) log).2.2).2.1
        = some ErrCode.missingReference
    rw [resolveLoop_sticky]
    exact ih _

theorem resolveCells_missing_hit (sink : Bool) (m : LMap) :
    ∀ (l : List (String × LCell)) (ec : Option ErrCode) (log : List String),
      (∃ p ∈ l, ∃ nm, DepSlot.pending nm ∈ (p : String × LCell).2.deps ∧ lmapGet m nm = none) →
      (resolveCells sink m l ec log).2.1 = some ErrCode.missingReference := by
  intro l
  induction l with
  | nil =>
    intro ec log h
    obtain ⟨p, hp, _⟩ := h
    cases hp
  | cons q rest ih =>
    obtain ⟨n, c⟩ := q
    intro ec log hbad
    obtain ⟨p, hp, nm, hslot, hlook⟩ := hbad
    show (resolveCells sink m rest (resolveLoop sink m c.deps 0 ec log).2.1
      (resolveLoop sink m c.deps 0 ec log).2.2).2.1 = some ErrCode.missingReference
    rcases List.mem_cons.mp hp with rfl | hmem
    · have hslot2 : DepSlot.pending nm ∈ c.deps := hslot
      have h1 : (resolveLoop sink m c.deps 0 ec log).2.1 = some ErrCode.missingReference := by
        obtain ⟨⟨j, hj⟩, hget⟩ := List.mem_iff_get.mp hslot2
        exact resolveLoop_missing_hit sink m c.deps.length c.deps 0 ec log (by omega)
          ⟨j, hj, by omega, nm, hget, hlook⟩
      rw [h1]
      exact resolveCells_sticky sink m rest _
    · exact ih _ _ ⟨p, hmem, nm, hslot, hlook⟩

/- ===== Well-formed input files ===== -/

/- A well-formed file is a sequence of structures followed by ENDLIB; each
   structure is BGNSTR (its record is 28 bytes), STRNAME, a body of SNAME
   records (instance references) and other records, and ENDSTR. -/

structure StructSpec where
  name : String
  refs : List String
  extras : List Nat
  deriving DecidableEq

def refsLen (rs : List String) : Nat := (rs.map (fun r => 4 + r.length)).sum

def structSize (sp : StructSpec) : Nat :=
  28 + (4 + sp.name.length) + refsLen sp.refs + sp.extras.sum + 4

def cellOf (sp : StructSpec) (pos : Nat) : LCell :=
  { name := some sp.name, offset := pos, size := structSize sp,
    deps := sp.refs.map DepSlot.pending }

def structRecs (sp : StructSpec) : List RRec :=
  RRec.bgnstr 28 :: RRec.strname sp.name (4 + sp.name.length) ::
    (sp.refs.map (fun r => RRec.sname r (4 + r.length))
      ++ sp.extras.map RRec.other ++ [RRec.endstr 4])

def fileRecs (sps : List StructSpec) : List RRec :=
  (sps.map structRecs).flatten ++ [RRec.endlib]

def loadMap : List StructSpec → Nat → LMap → LMap
  | [], _, m => m
  | sp :: rest, pos, m => loadMap rest (pos + structSize sp) (lmapSet m sp.name (cellOf sp pos))

theorem refsLen_cons (r : String) (rs : List String) :
    refsLen (r :: rs) = (4 + r.length) + refsLen rs := by
  simp [refsLen]

theorem loadLoop_snames (sink : Bool) (fuel : Nat) (rs : List String) :
    ∀ (rest : List RRec) (pos : Nat) (c : LCell) (m : LMap) (ec : Option ErrCode)
      (log : List String),
      loadLoop sink fuel (rs.map (fun r => RRec.sname r (4 + r.length)) ++ rest) pos (some c)
          m ec log
        = loadLoop sink fuel rest (pos + refsLen rs)
            (some { c with
                    deps := c.deps ++ rs.map DepSlot.pending,
                    size := c.size + refsLen rs }) m ec log := by
  induction rs with
  | nil =>
    intro rest pos c m ec log
    simp [refsLen]
  | cons r rs ih =>
    intro rest pos c m ec log
    simp only [List.map_cons, List.cons_append, loadLoop, List.append_eq]
    rw [ih]
    simp [refsLen_cons, List.append_assoc, Nat.add_assoc]

theorem loadLoop_extras (sink : Bool) (fuel : Nat) (es : List Nat) :
    ∀ (rest : List RRec) (pos : Nat) (c : LCell) (m : LMap) (ec : Option ErrCode)
      (log : List String),
      loadLoop sink fuel (es.map RRec.other ++ rest) pos (some c) m ec log
        = loadLoop sink fuel rest (pos + es.sum) (some { c with size := c.size + es.sum })
            m ec log := by
  induction es with
  | nil =>
    intro rest pos c m ec log
    simp
  | cons e es ih =>
    intro rest pos c m ec log
    simp only [List.map_cons, List.cons_append, loadLoop, List.append_eq]
    rw [ih]
    simp [Nat.add_assoc]

theorem loadLoop_struct (sink : Bool) (fuel : Nat) (sp : StructSpec)
    (rest : List RRec) (pos : Nat) (m : LMap) (ec : Option ErrCode) (log : List String) :
    loadLoop sink fuel (structRecs sp ++ rest) pos none m ec log
      = loadLoop sink fuel rest (pos + structSize sp) none
          (lmapSet m sp.name (cellOf sp pos)) ec log := by
  show loadLoop sink fuel (RRec.bgnstr 28 :: RRec.strname sp.name (4 + sp.name.length) ::
    ((sp.refs.map (fun r => RRec.sname r (4 + r.length)) ++ sp.extras.map RRec.other
      ++ [RRec.endstr 4]) ++ rest)) pos none m ec log = _
  simp only [loadLoop, flushCur, List.append_assoc, List.append_eq]
  rw [loadLoop_snames, loadLoop_extras]
  simp only [List.cons_append, List.nil_append, loadLoop, flushCur]
  simp [cellOf, structSize, Nat.add_assoc]

theorem loadLoop_file (sink : Bool) (fuel : Nat) :
    ∀ (sps : List StructSpec) (pos : Nat) (m : LMap) (ec : Option ErrCode) (log : List String),
      loadLoop sink fuel (fileRecs sps) pos none m ec log
        = some (resolveCells sink (loadMap sps pos m) (loadMap sps pos m) ec log) := by
  intro sps
  induction sps with
  | nil =>
    intro pos m ec log
    rfl
  | cons sp sps ih =>
    intro pos m ec log
    show loadLoop sink fuel ((structRecs sp ++ (sps.map structRecs).flatten) ++ [RRec.endlib])
      pos none m ec log = _
    rw [List.append_assoc, loadLoop_struct]
    exact ih _ _ _ _

theorem loadMap_fresh_length :
    ∀ (sps : List StructSpec) (pos : Nat) (m : LMap),
      (∀ sp ∈ sps, sp.name ∉ lmapKeys m) → (sps.map StructSpec.name).Nodup →
      (loadMap sps pos m).length = m.length + sps.length := by
  intro sps
  induction sps with
  | nil => intro pos m _ _; simp [loadMap]
  | cons sp sps ih =>
    intro pos m hfresh hnd
    have hf1 : sp.name ∉ lmapKeys m := hfresh sp (List.mem_cons_self _ _)
    have hkeys := lmapKeys_lmapSet_fresh m sp.name (cellOf sp pos) hf1
    have hnd2 : (sps.map StructSpec.name).Nodup := (List.nodup_cons.mp hnd).2
    have hsp1 : sp.name ∉ sps.map StructSpec.name := (List.nodup_cons.mp hnd).1
    have hlen : (lmapSet m sp.name (cellOf sp pos)).length = m.length + 1 := by
      have h2 := congrArg List.length hkeys
      simpa [lmapKeys] using h2
    show (loadMap sps (pos + structSize sp) (lmapSet m sp.name (cellOf sp pos))).length
      = m.length + (sps.length + 1)
    rw [ih (pos + structSize sp) _ ?_ hnd2, hlen]
    · omega
    · intro sp2 hsp2
      rw [hkeys]
      simp only [List.mem_append, List.mem_singleton]
      rintro (h | h)
      · exact hfresh sp2 (List.mem_cons_of_mem _ hsp2) h
      · exact hsp1 (h ▸ List.mem_map_of_mem StructSpec.name hsp2)

theorem loadMap_get_preserve :
    ∀ (sps : List StructSpec) (pos : Nat) (m : LMap) (k : String),
      (∀ sp ∈ sps, sp.name ≠ k) →
      lmapGet (loadMap sps pos m) k = lmapGet m k := by
  intro sps
  induction sps with
  | nil => intro pos m k _; rfl
  | cons sp sps ih =>
    intro pos m k hne
    show lmapGet (loadMap sps (pos + structSize sp) (lmapSet m sp.name (cellOf sp pos))) k
      = lmapGet m k
    rw [ih _ _ k (fun sp2 h2 => hne sp2 (List.mem_cons_of_mem _ h2))]
    exact lmapGet_lmapSet_ne m sp.name k _
      (fun h => hne sp (List.mem_cons_self _ _) h.symm)

theorem loadMap_get_found :
    ∀ (sps : List StructSpec) (pos : Nat) (m : LMap) (sp : StructSpec),
      sp ∈ sps → (sps.map StructSpec.name).Nodup →
      ∃ pos2, lmapGet (loadMap sps pos m) sp.name = some (cellOf sp pos2) := by
  intro sps
  induction sps with
  | nil => intro pos m sp h; cases h
  | cons sp0 sps ih =>
    intro pos m sp hsp hnd
    have hnd2 : (sps.map StructSpec.name).Nodup := (List.nodup_cons.mp hnd).2
    have hsp1 : sp0.name ∉ sps.map StructSpec.name := (List.nodup_cons.mp hnd).1
    rcases List.mem_cons.mp hsp with rfl | hmem
    · refine ⟨pos, ?_⟩
      show lmapGet (loadMap sps (pos + structSize sp) (lmapSet m sp.name (cellOf sp pos)))
        sp.name = some (cellOf sp pos)
      rw [loadMap_get_preserve sps _ _ sp.name ?_]
      · exact lmapGet_lmapSet_self m sp.name _
      · intro sp2 h2 hname
        exact hsp1 (hname ▸ List.mem_map_of_mem StructSpec.name h2)
    · exact ih _ _ sp hmem hnd2

theorem loadMap_keys :
    ∀ (sps : List StructSpec) (pos : Nat) (m : LMap),
      (∀ sp ∈ sps, sp.name ∉ lmapKeys m) → (sps.map StructSpec.name).Nodup →
      lmapKeys (loadMap sps pos m) = lmapKeys m ++ sps.map StructSpec.name := by
  intro sps
  induction sps with
  | nil => intro pos m _ _; simp [loadMap]
  | cons sp sps ih =>
    intro pos m hfresh hnd
    have hf1 : sp.name ∉ lmapKeys m := hfresh sp (List.mem_cons_self _ _)
    have hkeys := lmapKeys_lmapSet_fresh m sp.name (cellOf sp pos) hf1
    have hnd2 : (sps.map StructSpec.name).Nodup := (List.nodup_cons.mp hnd).2
    have hsp1 : sp.name ∉ sps.map StructSpec.name := (List.nodup_cons.mp hnd).1
    show lmapKeys (loadMap sps (pos + structSize sp) (lmapSet m sp.name (cellOf sp pos)))
      = lmapKeys m ++ (sp.name :: sps.map StructSpec.name)
    rw [ih (pos + structSize sp) _ ?_ hnd2, hkeys]
    · simp
    · intro sp2 hsp2
      rw [hkeys]
      simp only [List.mem_append, List.mem_singleton]
      rintro (h | h)
      · exact hfresh sp2 (List.mem_cons_of_mem _ hsp2) h
      · exact hsp1 (h ▸ List.mem_map_of_mem StructSpec.name hsp2)

theorem loadMap_cells_pending :
    ∀ (sps : List StructSpec) (pos : Nat) (m : LMap),
      (∀ p ∈ m, ∀ s ∈ (p : String × LCell).2.deps, ∃ nm, s = DepSlot.pending nm) →
      ∀ p ∈ loadMap sps pos m, ∀ s ∈ (p : String × LCell).2.deps,
        ∃ nm, s = DepSlot.pending nm := by
  intro sps
  induction sps with
  | nil => intro pos m h; exact h
  | cons sp sps ih =>
    intro pos m hm
    refine ih _ _ ?_
    intro p hp s hs
    rcases lmapSet_mem m sp.name (cellOf sp pos) p hp with h | h
    · exact hm p h s hs
    · subst h
      have hs2 : s ∈ sp.refs.map DepSlot.pending := hs
      obtain ⟨nm, _, rfl⟩ := List.mem_map.mp hs2
      exact ⟨nm, rfl⟩

def isBgnRec : RRec → Bool
  | RRec.bgnstr _ => true
  | _ => false

def isEndRec : RRec → Bool
  | RRec.endstr _ => true
  | _ => false

theorem countP_structRecs_bgn (sp : StructSpec) : (structRecs sp).countP isBgnRec = 1 := by
  simp [structRecs, List.countP_cons, List.countP_append, List.countP_map, isBgnRec,
    Function.comp_def, List.countP_eq_zero]

theorem countP_structRecs_end (sp : StructSpec) : (structRecs sp).countP isEndRec = 1 := by
  simp [structRecs, List.countP_cons, List.countP_append, List.countP_map, isEndRec,
    Function.comp_def, List.countP_eq_zero]

theorem countP_fileRecs_bgn :
    ∀ sps : List StructSpec, (fileRecs sps).countP isBgnRec = sps.length := by
  intro sps
  induction sps with
  | nil => rfl
  | cons sp sps ih =>
    show ((structRecs sp ++ (sps.map structRecs).flatten) ++ [RRec.endlib]).countP isBgnRec
      = sps.length + 1
    rw [List.append_assoc, List.countP_append, countP_structRecs_bgn]
    have h2 : ((sps.map structRecs).flatten ++ [RRec.endlib]).countP isBgnRec = sps.length := ih
    omega

theorem countP_fileRecs_end :
    ∀ sps : List StructSpec, (fileRecs sps).countP isEndRec = sps.length := by
  intro sps
  induction sps with
  | nil => rfl
  | cons sp sps ih =>
    show ((structRecs sp ++ (sps.map structRecs).flatten) ++ [RRec.endlib]).countP isEndRec
      = sps.length + 1
    rw [List.append_assoc, List.countP_append, countP_structRecs_end]
    have h2 : ((sps.map structRecs).flatten ++ [RRec.endlib]).countP isEndRec = sps.length := ih
    omega

/-- C6: for every well-formed input file (a sequence of uniquely named
structures followed by ENDLIB), read_rawcells returns a map whose entity
count equals the number of BGNSTR records, which equals the number of
ENDSTR records (one begin/end pair per structure), and every dependency
slot of every returned entity is resolved and names an entity present in
that same map. -/
theorem c6_wellformed_load (sink : Bool) (fuel : Nat) (sps : List StructSpec)
    (hnd : (sps.map StructSpec.name).Nodup) :
    ∃ m ec log, read_rawcells true sink fuel (fileRecs sps) = some (m, ec, log) ∧
      m.length = (fileRecs sps).countP isBgnRec ∧
      (fileRecs sps).countP isBgnRec = (fileRecs sps).countP isEndRec ∧
      (∀ p ∈ m, ∀ s ∈ (p : String × LCell).2.deps,
        ∃ k, s = DepSlot.resolved k ∧ (lmapGet m k).isSome = true) := by
  have hL := loadLoop_file sink fuel sps 0 [] none []
  have hpend : ∀ p ∈ loadMap sps 0 [], ∀ s ∈ (p : String × LCell).2.deps,
      ∃ nm, s = DepSlot.pending nm :=
    loadMap_cells_pending sps 0 [] (by intro p hp; cases hp)
  refine ⟨(resolveCells sink (loadMap sps 0 []) (loadMap sps 0 []) none []).1,
    (resolveCells sink (loadMap sps 0 []) (loadMap sps 0 []) none []).2.1,
    (resolveCells sink (loadMap sps 0 []) (loadMap sps 0 []) none []).2.2, ?_, ?_, ?_, ?_⟩
  · show loadLoop sink fuel (fileRecs sps) 0 none [] none [] = _
    rw [hL]
  · rw [resolveCells_length, countP_fileRecs_bgn]
    have h2 := loadMap_fresh_length sps 0 []
      (by intro sp2 _ h; cases h) hnd
    simpa using h2
  · rw [countP_fileRecs_bgn, countP_fileRecs_end]
  · intro p hp s hs
    obtain ⟨k, hk, hsome⟩ := resolveCells_slots sink (loadMap sps 0 []) (loadMap sps 0 [])
      none [] hpend p hp s hs
    refine ⟨k, hk, ?_⟩
    rw [lmapGet_isSome_iff] at hsome ⊢
    show k ∈ lmapKeys (resolveCells sink (loadMap sps 0 []) (loadMap sps 0 []) none []).1
    show k ∈ (resolveCells sink (loadMap sps 0 []) (loadMap sps 0 []) none []).1.map Prod.fst
    rw [resolveCells_keys]
    exact hsome

/- Concrete well-formed file for the C6 witness: A references B; B holds
   one extra body record. -/

def spsC6 : List StructSpec :=
  [{ name := "A", refs := ["B"], extras := [] }, { name := "B", refs := [], extras := [6] }]

/-- Witness for C6 on the two-structure file spsC6. -/
theorem c6_witness :
    ((spsC6.map StructSpec.name).Nodup) ∧
    (∃ m ec log, read_rawcells true true 10 (fileRecs spsC6) = some (m, ec, log) ∧
      m.length = (fileRecs spsC6).countP isBgnRec ∧
      (fileRecs spsC6).countP isBgnRec = (fileRecs spsC6).countP isEndRec ∧
      (∀ p ∈ m, ∀ s ∈ (p : String × LCell).2.deps,
        ∃ k, s = DepSlot.resolved k ∧ (lmapGet m k).isSome = true)) :=
  ⟨by decide, c6_wellformed_load true 10 spsC6 (by decide)⟩

/-- C7: for a well-formed file in which some structure references a name d
absent from the file, loading still succeeds (a map is returned), the
error code reports MissingReference, and no entity of the returned map —
in particular not the referencing one — retains any dependency slot for
d, neither pending nor resolved. -/
theorem c7_missing_reference (sink : Bool) (fuel : Nat) (sps : List StructSpec)
    (sp : StructSpec) (d : String) (hnd : (sps.map StructSpec.name).Nodup)
    (hsp : sp ∈ sps) (hd : d ∈ sp.refs) (habs : d ∉ sps.map StructSpec.name) :
    ∃ m log, read_rawcells true sink fuel (fileRecs sps)
        = some (m, some ErrCode.missingReference, log) ∧
      (∀ p ∈ m, ∀ s ∈ (p : String × LCell).2.deps,
        s ≠ DepSlot.pending d ∧ s ≠ DepSlot.resolved d) := by
  have hL := loadLoop_file sink fuel sps 0 [] none []
  have hpend : ∀ p ∈ loadMap sps 0 [], ∀ s ∈ (p : String × LCell).2.deps,
      ∃ nm, s = DepSlot.pending nm :=
    loadMap_cells_pending sps 0 [] (by intro p hp; cases hp)
  have hlookd : lmapGet (loadMap sps 0 []) d = none := by
    cases hcase : lmapGet (loadMap sps 0 []) d with
    | none => rfl
    | some c =>
      exfalso
      have h1 : (lmapGet (loadMap sps 0 []) d).isSome = true := by rw [hcase]; rfl
      rw [lmapGet_isSome_iff] at h1
      rw [loadMap_keys sps 0 [] (by intro sp2 _ h; cases h) hnd] at h1
      simp only [lmapKeys, List.map_nil, List.nil_append] at h1
      exact habs h1
  have hec : (resolveCells sink (loadMap sps 0 []) (loadMap sps 0 []) none []).2.1
      = some ErrCode.missingReference := by
    obtain ⟨pos2, hget⟩ := loadMap_get_found sps 0 [] sp hsp hnd
    refine resolveCells_missing_hit sink (loadMap sps 0 []) (loadMap sps 0 []) none []
      ⟨(sp.name, cellOf sp pos2), lmapGet_mem _ _ _ hget, d, ?_, hlookd⟩
    show DepSlot.pending d ∈ (cellOf sp pos2).deps
    exact List.mem_map_of_mem DepSlot.pending hd
  refine ⟨(resolveCells sink (loadMap sps 0 []) (loadMap sps 0 []) none []).1,
    (resolveCells sink (loadMap sps 0 []) (loadMap sps 0 []) none []).2.2, ?_, ?_⟩
  · show loadLoop sink fuel (fileRecs sps) 0 none [] none [] = _
    rw [hL, ← hec]
  · intro p hp s hs
    obtain ⟨k, hk, hsome⟩ := resolveCells_slots sink (loadMap sps 0 []) (loadMap sps 0 [])
      none [] hpend p hp s hs
    subst hk
    constructor
    · intro h; cases h
    · intro h
      have hkd : k = d := by
        injection h
      subst hkd
      rw [hlookd] at hsome
      cases hsome

/- Concrete file for the C7 witness: the only structure A references the
   absent name Z. -/

def spsC7 : List StructSpec := [{ name := "A", refs := ["Z"], extras := [] }]

def spC7 : StructSpec := { name := "A", refs := ["Z"], extras := [] }

/-- Witness for C7 on the file spsC7 with missing reference Z. -/
theorem c7_witness :
    ((spsC7.map StructSpec.name).Nodup ∧ spC7 ∈ spsC7 ∧ "Z" ∈ spC7.refs ∧
      "Z" ∉ spsC7.map StructSpec.name) ∧
    (∃ m log, read_rawcells true true 10 (fileRecs spsC7)
        = some (m, some ErrCode.missingReference, log) ∧
      (∀ p ∈ m, ∀ s ∈ (p : String × LCell).2.deps,
        s ≠ DepSlot.pending "Z" ∧ s ≠ DepSlot.resolved "Z")) :=
  ⟨⟨by decide, by decide, by decide, by decide⟩,
   c7_missing_reference true 10 spsC7 spC7 "Z" (by decide) (by decide) (by decide) (by decide)⟩

/- ===== RawCell::to_gds (src/rawcell.cpp:231-252) ===== -/

/- A cell as seen by to_gds: byte offset and length in the original file,
   and an owned buffer once materialized. -/

structure MCell where
  offset : Nat
  size : Nat
  data : Option (List Nat)
  deriving DecidableEq

/-- Modelled from the spec: RawSource::offset_read (the positionedRead of
section 4.2) is not under src/; it reads size bytes of the original file
starting at an absolute offset and reports a short read when the range
runs past the end of the file. -/
def offset_read (file : List Nat) (off size : Nat) : Option (List Nat) :=
  if off + size ≤ file.length then some ((file.drop off).take size) else none

/- RawCell::to_gds: when still backed by the shared source, materialize
   first — read the byte range at the stored offset (on failure report
   InputFileError and zero the size) and release the source — then write
   the size buffered bytes to the output.  Returns the written bytes, the
   updated cell and the error code. -/

def to_gds (file : List Nat) (c : MCell) : List Nat × MCell × ErrCode :=
  match c.data with
  | some buf => (buf, c, ErrCode.noError)
  | none =>
    match offset_read file c.offset c.size with
    | some buf => (buf, { c with data := some buf }, ErrCode.noError)
    | none => ([], { c with data := some [], size := 0 }, ErrCode.inputFileError)

/-- C8: for an unmaterialized entity whose shared source holds the
original bytes, to_gds (materializing first) writes to the destination
exactly the byteLength bytes of the original file starting at the stored
offset — byte-identical round trip — and reports no error.  The range
hypothesis states that the source read succeeds, i.e. the stored range
lies within the original file. -/
theorem c8_to_gds_roundtrip (file : List Nat) (c : MCell)
    (hunmat : c.data = none) (hrange : c.offset + c.size ≤ file.length) :
    (to_gds file c).1 = (file.drop c.offset).take c.size ∧
    (to_gds file c).1.length = c.size ∧
    (to_gds file c).2.2 = ErrCode.noError := by
  unfold to_gds
  rw [hunmat]
  unfold offset_read
  rw [if_pos hrange]
  refine ⟨rfl, ?_, rfl⟩
  simp only [List.length_take, List.length_drop]
  omega

def fileC8 : List Nat := [10, 20, 30, 40, 50]

def cellC8 : MCell := { offset := 1, size := 3, data := none }

/-- Witness for C8 on a five-byte file and the range of bytes 1..3. -/
theorem c8_witness :
    (cellC8.data = none ∧ cellC8.offset + cellC8.size ≤ fileC8.length) ∧
    ((to_gds fileC8 cellC8).1 = (fileC8.drop cellC8.offset).take cellC8.size ∧
     (to_gds fileC8 cellC8).1.length = cellC8.size ∧
     (to_gds fileC8 cellC8).2.2 = ErrCode.noError) :=
  ⟨⟨by decide, by decide⟩, c8_to_gds_roundtrip fileC8 cellC8 (by decide) (by decide)⟩

/- ===== C9: the diagnostic sink never changes results ===== -/

def stripLogLoad (r : Option (LMap × Option ErrCode × List String)) :
    Option (LMap × Option ErrCode) :=
  r.map (fun t => (t.1, t.2.1))

def stripLogPoly (r : Option (ScanSt × List String)) : Option ScanSt :=
  r.map (fun t => t.1)

theorem resolveLoop_sink_indep (m : LMap) :
    ∀ (meas : Nat) (deps : List DepSlot) (i : Nat) (ec : Option ErrCode)
      (s1 s2 : Bool) (l1 l2 : List String),
      deps.length - i ≤ meas →
      ((resolveLoop s1 m deps i ec l1).1, (resolveLoop s1 m deps i ec l1).2.1)
        = ((resolveLoop s2 m deps i ec l2).1, (resolveLoop s2 m deps i ec l2).2.1) := by
  intro meas
  induction meas with
  | zero =>
    intro deps i ec s1 s2 l1 l2 hmeas
    conv_lhs => rw [resolveLoop, dif_neg (show ¬ i < deps.length by omega)]
    conv_rhs => rw [resolveLoop, dif_neg (show ¬ i < deps.length by omega)]
  | succ k ih =>
    intro deps i ec s1 s2 l1 l2 hmeas
    by_cases hi : i < deps.length
    case neg =>
      conv_lhs => rw [resolveLoop, dif_neg hi]
      conv_rhs => rw [resolveLoop, dif_neg hi]
    case pos =>
      conv_lhs => rw [resolveLoop, dif_pos hi]
      conv_rhs => rw [resolveLoop, dif_pos hi]
      split
      next nm hslot =>
        split
        next c hlook =>
          split
          next hmem =>
            exact ih (removeUnordered deps i) i ec s1 s2 l1 l2
              (by rw [removeUnordered_length]; omega)
          next hmem =>
            exact ih (deps.set i (DepSlot.resolved nm)) (i + 1) ec s1 s2 l1 l2
              (by rw [List.length_set]; omega)
        next hlook =>
          exact ih (removeUnordered deps i) i (some ErrCode.missingReference) s1 s2
            (l1 ++ if s1 = true then [missingRefMsg nm] else [])
            (l2 ++ if s2 = true then [missingRefMsg nm] else [])
            (by rw [removeUnordered_length]; omega)
      next nm hslot =>
        exact ih deps (i + 1) ec s1 s2 l1 l2 (by omega)

theorem resolveLoop_sink_indep_fst (m : LMap) (deps : List DepSlot) (i : Nat)
    (ec : Option ErrCode) (s1 s2 : Bool) (l1 l2 : List String) :
    (resolveLoop s1 m deps i ec l1).1 = (resolveLoop s2 m deps i ec l2).1 :=
  congrArg (fun p : List DepSlot × Option ErrCode => p.1)
    (resolveLoop_sink_indep m (deps.length - i) deps i ec s1 s2 l1 l2 (le_refl _))

theorem resolveLoop_sink_indep_ec (m : LMap) (deps : List DepSlot) (i : Nat)
    (ec : Option ErrCode) (s1 s2 : Bool) (l1 l2 : List String) :
    (resolveLoop s1 m deps i ec l1).2.1 = (resolveLoop s2 m deps i ec l2).2.1 :=
  congrArg (fun p : List DepSlot × Option ErrCode => p.2)
    (resolveLoop_sink_indep m (deps.length - i) deps i ec s1 s2 l1 l2 (le_refl _))

theorem resolveCells_sink_indep (m : LMap) :
    ∀ (l : List (String × LCell)) (ec : Option ErrCode) (s1 s2 : Bool) (l1 l2 : List String),
      ((resolveCells s1 m l ec l1).1, (resolveCells s1 m l ec l1).2.1)
        = ((resolveCells s2 m l ec l2).1, (resolveCells s2 m l ec l2).2.1) := by
  intro l
  induction l with
  | nil => intro ec s1 s2 l1 l2; rfl
  | cons q rest ih =>
    obtain ⟨n, c⟩ := q
    intro ec s1 s2 l1 l2
    show ((n, { c with deps := (resolveLoop s1 m c.deps 0 ec l1).1 }) ::
      (resolveCells s1 m rest (resolveLoop s1 m c.deps 0 ec l1).2.1
        (resolveLoop s1 m c.deps 0 ec l1).2.2).1,
      (resolveCells s1 m rest (resolveLoop s1 m c.deps 0 ec l1).2.1
        (resolveLoop s1 m c.deps 0 ec l1).2.2).2.1)
      = ((n, { c with deps := (resolveLoop s2 m c.deps 0 ec l2).1 }) ::
      (resolveCells s2 m rest (resolveLoop s2 m c.deps 0 ec l2).2.1
        (resolveLoop s2 m c.deps 0 ec l2).2.2).1,
      (resolveCells s2 m rest (resolveLoop s2 m c.deps 0 ec l2).2.1
        (resolveLoop s2 m c.deps 0 ec l2).2.2).2.1)
    rw [resolveLoop_sink_indep_fst m c.deps 0 ec s1 s2 l1 l2,
        resolveLoop_sink_indep_ec m c.deps 0 ec s1 s2 l1 l2]
    have hT := ih (resolveLoop s2 m c.deps 0 ec l2).2.1 s1 s2
      (resolveLoop s1 m c.deps 0 ec l1).2.2 (resolveLoop s2 m c.deps 0 ec l2).2.2
    have hT1 : (resolveCells s1 m rest (resolveLoop s2 m c.deps 0 ec l2).2.1
        (resolveLoop s1 m c.deps 0 ec l1).2.2).1
        = (resolveCells s2 m rest (resolveLoop s2 m c.deps 0 ec l2).2.1
        (resolveLoop s2 m c.deps 0 ec l2).2.2).1 :=
      congrArg (fun p : List (String × LCell) × Option ErrCode => p.1) hT
    have hT2 : (resolveCells s1 m rest (resolveLoop s2 m c.deps 0 ec l2).2.1
        (resolveLoop s1 m c.deps 0 ec l1).2.2).2.1
        = (resolveCells s2 m rest (resolveLoop s2 m c.deps 0 ec l2).2.1
        (resolveLoop s2 m c.deps 0 ec l2).2.2).2.1 :=
      congrArg (fun p : List (String × LCell) × Option ErrCode => p.2) hT
    rw [hT1, hT2]

theorem resolveCells_sink_indep_fst (m : LMap) (l : List (String × LCell))
    (ec : Option ErrCode) (s1 s2 : Bool) (l1 l2 : List String) :
    (resolveCells s1 m l ec l1).1 = (resolveCells s2 m l ec l2).1 :=
  congrArg (fun p : List (String × LCell) × Option ErrCode => p.1)
    (resolveCells_sink_indep m l ec s1 s2 l1 l2)

theorem resolveCells_sink_indep_ec (m : LMap) (l : List (String × LCell))
    (ec : Option ErrCode) (s1 s2 : Bool) (l1 l2 : List String) :
    (resolveCells s1 m l ec l1).2.1 = (resolveCells s2 m l ec l2).2.1 :=
  congrArg (fun p : List (String × LCell) × Option ErrCode => p.2)
    (resolveCells_sink_indep m l ec s1 s2 l1 l2)

theorem loadLoop_sink_indep (fuel : Nat) :
    ∀ (recs : List RRec) (pos : Nat) (cur : Option LCell) (m : LMap) (ec : Option ErrCode)
      (s1 s2 : Bool) (l1 l2 : List String),
      stripLogLoad (loadLoop s1 fuel recs pos cur m ec l1)
        = stripLogLoad (loadLoop s2 fuel recs pos cur m ec l2) := by
  intro recs
  induction recs with
  | nil =>
    intro pos cur m ec s1 s2 l1 l2
    show stripLogLoad (teardown s1 fuel (flushCur cur m) l1)
      = stripLogLoad (teardown s2 fuel (flushCur cur m) l2)
    unfold teardown
    cases teardownCells fuel (flushCur cur m) with
    | none => rfl
    | some u => rfl
  | cons r rest ih =>
    intro pos cur m ec s1 s2 l1 l2
    cases r with
    | endlib =>
      show some ((resolveCells s1 (flushCur cur m) (flushCur cur m) ec l1).1,
        (resolveCells s1 (flushCur cur m) (flushCur cur m) ec l1).2.1)
        = some ((resolveCells s2 (flushCur cur m) (flushCur cur m) ec l2).1,
          (resolveCells s2 (flushCur cur m) (flushCur cur m) ec l2).2.1)
      rw [resolveCells_sink_indep_fst (flushCur cur m) (flushCur cur m) ec s1 s2 l1 l2,
          resolveCells_sink_indep_ec (flushCur cur m) (flushCur cur m) ec s1 s2 l1 l2]
    | bgnstr len => exact ih _ _ _ _ s1 s2 l1 l2
    | strname s len =>
      cases cur with
      | some c => exact ih _ _ _ _ s1 s2 l1 l2
      | none => exact ih _ _ _ _ s1 s2 l1 l2
    | endstr len =>
      cases cur with
      | some c => exact ih _ _ _ _ s1 s2 l1 l2
      | none => exact ih _ _ _ _ s1 s2 l1 l2
    | sname s len =>
      cases cur with
      | some c => exact ih _ _ _ _ s1 s2 l1 l2
      | none => exact ih _ _ _ _ s1 s2 l1 l2
    | other len =>
      cases cur with
      | some c => exact ih _ _ _ _ s1 s2 l1 l2
      | none => exact ih _ _ _ _ s1 s2 l1 l2

/-- C9: the presence or absence of the diagnostic sink changes neither the
returned structure map nor the error code of the whole-file loader
(teardown path included) and neither the scan state (polygon triples,
polygon id, error code) of polygon extraction: only the emitted diagnostic
text differs. -/
theorem c9_sink_independent (g : Nat → GCell) (stream : List Rec) (recs : List RRec)
    (openOk s1 s2 : Bool) (fuel : Nat) (cid : Nat) (sid : Int) (depth : Int)
    (unit tol : ℚ) (ec : Option ErrCode) (acc : List (Int × Int × Int)) :
    (stripLogLoad (read_rawcells openOk s1 fuel recs)
      = stripLogLoad (read_rawcells openOk s2 fuel recs)) ∧
    (stripLogPoly (get_polygons g stream openOk s1 fuel cid sid depth unit tol ec acc)
      = stripLogPoly (get_polygons g stream openOk s2 fuel cid sid depth unit tol ec acc)) := by
  constructor
  · cases openOk with
    | false => rfl
    | true =>
      show stripLogLoad (loadLoop s1 fuel recs 0 none [] none [])
        = stripLogLoad (loadLoop s2 fuel recs 0 none [] none [])
      exact loadLoop_sink_indep fuel recs 0 none [] none s1 s2 [] []
  · cases openOk with
    | false => rfl
    | true => rfl
